import Mathlib

/-!
Verification of the restaurant chatbot NLP core (app/chatbot_logic.py):
text normalization, intent scoring, the ordered intent decision policy,
fuzzy menu search and the FAQ resolver. Python string primitives are
embedded over lists of characters; the fuzzywuzzy similarity library,
an external dependency, is modelled abstractly by a structure of score
functions bounded by 100, as the spec describes it.
-/

set_option maxRecDepth 100000

/-- The character class of the regex backslash-w (ASCII word characters;
the embedding approximates unicode word characters by ASCII). -/
def wordChar (c : Char) : Bool := c.isAlphanum || c = '_'

/-- Python str.lower, ASCII range. -/
def pyLower (s : String) : String := String.mk (s.toList.map Char.toLower)

/-- Python str.upper, ASCII range. -/
def pyUpper (s : String) : String := String.mk (s.toList.map Char.toUpper)

/-- Python str.strip: drop leading and trailing whitespace. -/
def pyStrip (s : String) : String :=
  String.mk (((s.toList.dropWhile Char.isWhitespace).reverse.dropWhile Char.isWhitespace).reverse)

/-- Python str.split with no argument: split on runs of whitespace,
no empty tokens. -/
def splitWsAux (cur : List Char) : List Char → List (List Char)
  | [] => if cur.isEmpty then [] else [cur.reverse]
  | c :: cs =>
      if c.isWhitespace then
        if cur.isEmpty then splitWsAux [] cs
        else cur.reverse :: splitWsAux [] cs
      else splitWsAux (c :: cur) cs

def pySplit (s : String) : List String := (splitWsAux [] s.toList).map String.mk

/-- Whether `pat` is a prefix of `l`. -/
def leadsWith : List Char → List Char → Bool
  | [], _ => true
  | _ :: _, [] => false
  | p :: ps, c :: cs => p = c && leadsWith ps cs

/-- Whether `pat` occurs as a contiguous substring of `hay`
(the Python operator in on strings). -/
def containsL (pat : List Char) : List Char → Bool
  | [] => pat.isEmpty
  | c :: cs => leadsWith pat (c :: cs) || containsL pat cs

def pyContains (hay pat : String) : Bool := containsL pat.toList hay.toList

/-- Python str.replace: replace every non-overlapping occurrence of `pat`,
scanning left to right. Structural recursion on a fuel argument so the
kernel can evaluate it; a non-empty match consumes at least one character,
so fuel equal to the length of the scanned list never runs out. The
contraction patterns are never empty, so the empty-pattern guard (Python
would interleave `rep` everywhere) is inert. -/
def replaceFuel (pat rep : List Char) : Nat → List Char → List Char
  | _, [] => []
  | 0, l => l
  | fuel + 1, c :: cs =>
      if !pat.isEmpty && leadsWith pat (c :: cs) then
        rep ++ replaceFuel pat rep fuel ((c :: cs).drop pat.length)
      else
        c :: replaceFuel pat rep fuel cs

def replaceL (pat rep s : List Char) : List Char :=
  replaceFuel pat rep s.length s

def pyReplace (s pat rep : String) : String :=
  String.mk (replaceL pat.toList rep.toList s.toList)

def joinSpace (l : List String) : String := String.intercalate " " l

/-- The contraction table of normalize_text, in source order. -/
def contractions : List (String × String) :=
  [("what's", "what is"), ("what're", "what are"), ("who's", "who is"),
   ("where's", "where is"), ("when's", "when is"), ("why's", "why is"),
   ("how's", "how is"), ("it's", "it is"), ("that's", "that is"),
   ("there's", "there is"), ("here's", "here is"), ("i'm", "i am"),
   ("you're", "you are"), ("we're", "we are"), ("they're", "they are"),
   ("i've", "i have"), ("you've", "you have"), ("we've", "we have"),
   ("they've", "they have"), ("i'll", "i will"), ("you'll", "you will"),
   ("we'll", "we will"), ("they'll", "they will"), ("don't", "do not"),
   ("doesn't", "does not"), ("didn't", "did not"), ("can't", "cannot"),
   ("won't", "will not"), ("isn't", "is not"), ("aren't", "are not"),
   ("wasn't", "was not"), ("weren't", "were not")]

/-- normalize_text: lowercase and strip, replace every character outside
backslash-w and whitespace by a space, collapse whitespace, then apply the
contraction table in order by literal replacement. -/
def normalize_text (text : String) : String :=
  let t1 := pyStrip (pyLower text)
  let t2 := String.mk (t1.toList.map (fun c => if wordChar c || c.isWhitespace then c else ' '))
  let t3 := joinSpace (pySplit t2)
  contractions.foldl (fun acc p => pyReplace acc p.1 p.2) t3

/-- Modelled from the spec: the fuzzywuzzy similarity library (spec section
4.3) is an external dependency, not part of this repository. Each function
is a pure score in [0,100]; `ratio` is the single-word similarity,
`pratio` stands for partial_ratio (substring-window similarity),
`setRatio` for token_set_ratio and `sortRatio` for token_sort_ratio. -/
structure Fuzz where
  ratio : String → String → Nat
  pratio : String → String → Nat
  setRatio : String → String → Nat
  sortRatio : String → String → Nat
  ratio_le : ∀ a b, ratio a b ≤ 100
  pratio_le : ∀ a b, pratio a b ≤ 100
  setRatio_le : ∀ a b, setRatio a b ≤ 100
  sortRatio_le : ∀ a b, sortRatio a b ≤ 100

/-- A concrete admissible instance (exact match scores 100, anything else 0),
used to instantiate witnesses; every similarity function of spec section 4.3
scores 100 on identical strings. -/
def exactEq (a b : String) : Nat := if a = b then 100 else 0

def trivialFuzz : Fuzz :=
  ⟨exactEq, exactEq, exactEq, exactEq,
   fun a b => by unfold exactEq; split <;> omega,
   fun a b => by unfold exactEq; split <;> omega,
   fun a b => by unfold exactEq; split <;> omega,
   fun a b => by unfold exactEq; split <;> omega⟩

/-- INTENT_KEYWORDS of the source, in dict insertion order. -/
def greetingKws : List String :=
  ["hi", "hello", "hey", "salam", "assalam", "good morning", "good afternoon",
   "good evening", "greetings", "hi there", "hello there"]

def farewellKws : List String :=
  ["bye", "goodbye", "see you", "farewell", "later", "take care", "see ya",
   "goodbye", "ciao", "adios"]

def hoursKws : List String :=
  ["open", "opening", "opens", "close", "closing", "closes", "hours", "hour",
   "timing", "timings", "time", "schedule", "when", "what time",
   "operational", "working hours", "business hours"]

def branchKws : List String :=
  ["branch", "branches", "location", "locations", "address", "addresses",
   "phone", "contact", "where", "find", "locate", "outlet", "outlets",
   "store", "stores", "shop", "near"]

def aboutKws : List String :=
  ["about", "information", "info", "tell me about", "who are you", "what is",
   "describe", "details", "background", "story", "history", "mission"]

def faqKws : List String :=
  ["delivery", "deliver", "veg", "vegetarian", "halal", "service", "services",
   "parking", "park", "car", "payment", "pay", "card", "cash", "credit",
   "reservation", "book", "table", "seat", "sitting", "wifi", "internet"]

def menuKws : List String :=
  ["menu", "dish", "dishes", "food", "item", "items", "order", "burger",
   "pizza", "pasta", "drink", "fries", "price", "prices", "cost", "how much",
   "variants", "flavours", "flavors", "show", "what", "list", "see",
   "have", "serve", "what's", "what is", "what are", "tell me", "show me",
   "give me", "i want", "can i get", "what do you have", "what do you serve",
   "what can i order", "what options", "selection", "spicy", "hot"]

def INTENT_KEYWORDS : List (String × List String) :=
  [("greeting", greetingKws), ("farewell", farewellKws), ("hours_query", hoursKws),
   ("branch_query", branchKws), ("about", aboutKws), ("faq_query", faqKws),
   ("menu_query", menuKws)]

/-- The inner fuzzy loop of calculate_intent_score: best fuzz.ratio of the
keyword against each token, counted only when both sides are longer than
two characters. -/
def bestRatioFor (fz : Fuzz) (user_words : List String) (keyword : String) : Nat :=
  user_words.foldl
    (fun best w => if w.length > 2 ∧ keyword.length > 2 then max best (fz.ratio w keyword) else best) 0

/-- calculate_intent_score: exact token membership scores 100, otherwise the
best per-token fuzz.ratio; every multi-word keyword additionally records a
fuzz.partial_ratio against the whole message; result is the maximum
(0 for an empty keyword list). The Python token set is a deduplicated
token list here; membership and maxima are unaffected. -/
def calculate_intent_score (fz : Fuzz) (user_msg : String) (intent_keywords : List String) : Nat :=
  let user_words := (pySplit user_msg).dedup
  let scores1 := intent_keywords.map
    (fun kw => if kw ∈ user_words then 100 else bestRatioFor fz user_words kw)
  let scores2 := (intent_keywords.filter (fun kw => (pySplit kw).length > 1)).map
    (fun kw => fz.pratio user_msg kw)
  let scores := scores1 ++ scores2
  if scores.isEmpty then 0 else scores.foldl max 0

/-- The keyword-override pass of detect_intent: a keyword present with
surrounding spaces in the padded normalized text forces 100; otherwise a
keyword longer than three characters present as a raw substring forces at
least 90. -/
def overrideStep (norm : String) (score : Nat) (keyword : String) : Nat :=
  if pyContains (" " ++ norm ++ " ") (" " ++ keyword ++ " ") then max score 100
  else if keyword.length > 3 ∧ pyContains norm keyword then max score 90
  else score

/-- The per-intent score computed inside detect_intent: calculate_intent_score
followed by the direct-keyword override loop. -/
def detectScore (fz : Fuzz) (norm : String) (kws : List String) : Nat :=
  kws.foldl (overrideStep norm) (calculate_intent_score fz norm kws)

/-- The literal hours disambiguation words of detect_intent. -/
def hoursWords : List String := ["open", "close", "timing", "hour"]

/-- detect_intent: normalize, score every intent, then apply the ordered
decision policy of the source (first matching rule returns; the pass in
the branch rule and the non-returning arms of the hours rule fall through
to the later rules, written here as `tail`). -/
def detect_intent (fz : Fuzz) (user_msg : String) : String :=
  let norm := normalize_text user_msg
  let gS := detectScore fz norm greetingKws
  let fS := detectScore fz norm farewellKws
  let hS := detectScore fz norm hoursKws
  let bS := detectScore fz norm branchKws
  let aS := detectScore fz norm aboutKws
  let qS := detectScore fz norm faqKws
  let mS := detectScore fz norm menuKws
  let pairs := [("greeting", gS), ("farewell", fS), ("hours_query", hS),
                ("branch_query", bS), ("about", aS), ("faq_query", qS), ("menu_query", mS)]
  let maxScore := (pairs.map Prod.snd).foldl max 0
  let best := ((pairs.find? (fun p => p.2 = maxScore)).map Prod.fst).getD "greeting"
  let tail :=
    if aS > 70 ∧ mS < 60 then "about"
    else if mS > 50 then "menu_query"
    else if maxScore > 50 then best
    else if (pySplit norm).length ≤ 4 then "menu_query"
    else "unknown"
  if gS > 80 then "greeting"
  else if fS > 80 then "farewell"
  else if bS > 70 ∧ ¬ (mS > bS) then "branch_query"
  else if qS > 70 then "faq_query"
  else if hS > 70 then
    if mS > 70 then
      if hoursWords.any (fun w => pyContains norm w) then "hours_query" else tail
    else "hours_query"
  else tail

/-- JSON-shaped Python values as the data layer hands them to the core:
the catalog, FAQ, branch and hours snapshots are parsed JSON. -/
inductive JVal where
  | str : String → JVal
  | num : Int → JVal
  | jbool : Bool → JVal
  | jnull : JVal
  | arr : List JVal → JVal
  | obj : List (String × JVal) → JVal
deriving Repr

mutual

/-- Decidable equality for the nested JVal inductive, written out by hand
(structural mutual recursion, so it evaluates in the kernel). -/
def decEqJVal (a b : JVal) : Decidable (a = b) :=
  match a, b with
  | .str x, .str y =>
      match decEq x y with
      | isTrue h => isTrue (by rw [h])
      | isFalse h => isFalse (by intro hc; injection hc; contradiction)
  | .num x, .num y =>
      match decEq x y with
      | isTrue h => isTrue (by rw [h])
      | isFalse h => isFalse (by intro hc; injection hc; contradiction)
  | .jbool x, .jbool y =>
      match decEq x y with
      | isTrue h => isTrue (by rw [h])
      | isFalse h => isFalse (by intro hc; injection hc; contradiction)
  | .jnull, .jnull => isTrue rfl
  | .arr x, .arr y =>
      match decEqJValList x y with
      | isTrue h => isTrue (by rw [h])
      | isFalse h => isFalse (by intro hc; injection hc; contradiction)
  | .obj x, .obj y =>
      match decEqJValObj x y with
      | isTrue h => isTrue (by rw [h])
      | isFalse h => isFalse (by intro hc; injection hc; contradiction)
  | .str _, .num _ => isFalse (by intro h; injection h)
  | .str _, .jbool _ => isFalse (by intro h; injection h)
  | .str _, .jnull => isFalse (by intro h; injection h)
  | .str _, .arr _ => isFalse (by intro h; injection h)
  | .str _, .obj _ => isFalse (by intro h; injection h)
  | .num _, .str _ => isFalse (by intro h; injection h)
  | .num _, .jbool _ => isFalse (by intro h; injection h)
  | .num _, .jnull => isFalse (by intro h; injection h)
  | .num _, .arr _ => isFalse (by intro h; injection h)
  | .num _, .obj _ => isFalse (by intro h; injection h)
  | .jbool _, .str _ => isFalse (by intro h; injection h)
  | .jbool _, .num _ => isFalse (by intro h; injection h)
  | .jbool _, .jnull => isFalse (by intro h; injection h)
  | .jbool _, .arr _ => isFalse (by intro h; injection h)
  | .jbool _, .obj _ => isFalse (by intro h; injection h)
  | .jnull, .str _ => isFalse (by intro h; injection h)
  | .jnull, .num _ => isFalse (by intro h; injection h)
  | .jnull, .jbool _ => isFalse (by intro h; injection h)
  | .jnull, .arr _ => isFalse (by intro h; injection h)
  | .jnull, .obj _ => isFalse (by intro h; injection h)
  | .arr _, .str _ => isFalse (by intro h; injection h)
  | .arr _, .num _ => isFalse (by intro h; injection h)
  | .arr _, .jbool _ => isFalse (by intro h; injection h)
  | .arr _, .jnull => isFalse (by intro h; injection h)
  | .arr _, .obj _ => isFalse (by intro h; injection h)
  | .obj _, .str _ => isFalse (by intro h; injection h)
  | .obj _, .num _ => isFalse (by intro h; injection h)
  | .obj _, .jbool _ => isFalse (by intro h; injection h)
  | .obj _, .jnull => isFalse (by intro h; injection h)
  | .obj _, .arr _ => isFalse (by intro h; injection h)

def decEqJValList (x y : List JVal) : Decidable (x = y) :=
  match x, y with
  | [], [] => isTrue rfl
  | _ :: _, [] => isFalse (by intro h; injection h)
  | [], _ :: _ => isFalse (by intro h; injection h)
  | a :: as, b :: bs =>
      match decEqJVal a b, decEqJValList as bs with
      | isTrue h1, isTrue h2 => isTrue (by rw [h1, h2])
      | isFalse h1, _ => isFalse (by intro h; injection h; contradiction)
      | _, isFalse h2 => isFalse (by intro h; injection h; contradiction)

def decEqJValObj (x y : List (String × JVal)) : Decidable (x = y) :=
  match x, y with
  | [], [] => isTrue rfl
  | _ :: _, [] => isFalse (by intro h; injection h)
  | [], _ :: _ => isFalse (by intro h; injection h)
  | (k1, v1) :: as, (k2, v2) :: bs =>
      match decEq k1 k2, decEqJVal v1 v2, decEqJValObj as bs with
      | isTrue h1, isTrue h2, isTrue h3 => isTrue (by rw [h1, h2, h3])
      | isFalse h1, _, _ =>
          isFalse (by intro h; injection h with ha hb; apply h1; exact congrArg Prod.fst ha)
      | _, isFalse h2, _ =>
          isFalse (by intro h; injection h with ha hb; apply h2; exact congrArg Prod.snd ha)
      | _, _, isFalse h3 => isFalse (by intro h; injection h; contradiction)

end

instance : DecidableEq JVal := decEqJVal

/-- Python truthiness of a JSON value. -/
def pyTruthy : JVal → Bool
  | .str s => !s.isEmpty
  | .num n => n ≠ 0
  | .jbool b => b
  | .jnull => false
  | .arr l => !l.isEmpty
  | .obj l => !l.isEmpty

mutual
/-- Python str() over JSON-shaped values, as an f-string renders them.
Scalars match Python exactly; containers are rendered recursively (their
exact Python repr spacing is immaterial here: no claim touches it). -/
def pyToStr : JVal → String
  | .str s => s
  | .num n => toString n
  | .jbool b => if b then "True" else "False"
  | .jnull => "None"
  | .arr l => "[" ++ pyToStrList l ++ "]"
  | .obj l => "\x7b" ++ pyToStrObj l ++ "\x7d"

def pyToStrList : List JVal → String
  | [] => ""
  | [v] => pyToStr v
  | v :: vs => pyToStr v ++ ", " ++ pyToStrList vs

def pyToStrObj : List (String × JVal) → String
  | [] => ""
  | [(k, v)] => k ++ ": " ++ pyToStr v
  | (k, v) :: vs => k ++ ": " ++ pyToStr v ++ ", " ++ pyToStrObj vs
end

/-- Key lookup in a JSON object (Python dict subscript / get): JSON-parsed
dicts have unique keys, so the first binding is the binding. -/
def dictFind (fields : List (String × JVal)) (k : String) : Option JVal :=
  (fields.find? (fun p => p.1 = k)).map Prod.snd

/-- Python dict assignment semantics for the corpus-to-item map of
search_menu: entries are appended in program order and a lookup sees the
last assignment to a key. -/
def mapGetLast (k : JVal) : List (JVal × JVal) → Option JVal
  | [] => none
  | e :: t =>
      match mapGetLast k t with
      | some v => some v
      | none => if e.1 = k then some e.2 else none

/-- The corpus rows one well-formed menu item contributes in search_menu,
in program order, each paired with the owning item name: the name itself,
a truthy description, a size-name string per dict variant with a size, and
for each flavour the flavour-name-plus-item-name string and the bare
flavour name (dict flavours with a name, or plain string flavours). -/
def entriesOfItem (fields : List (String × JVal)) (nm : JVal) : List (JVal × JVal) :=
  [(nm, nm)]
  ++ (match dictFind fields "description" with
      | some d => if pyTruthy d then [(d, nm)] else []
      | none => [])
  ++ (match dictFind fields "variants" with
      | some (.arr vs) =>
          vs.flatMap (fun v =>
            match v with
            | .obj vf =>
                match dictFind vf "size" with
                | some sz => [(JVal.str (pyToStr sz ++ " " ++ pyToStr nm), nm)]
                | none => []
            | _ => [])
      | _ => [])
  ++ (match dictFind fields "flavours" with
      | some (.arr fs) =>
          fs.flatMap (fun f =>
            match f with
            | .obj ff =>
                match dictFind ff "name" with
                | some fn => [(JVal.str (pyToStr fn ++ " " ++ pyToStr nm), nm), (fn, nm)]
                | none => []
            | .str s => [(JVal.str (s ++ " " ++ pyToStr nm), nm), (JVal.str s, nm)]
            | _ => [])
      | _ => [])

/-- The search corpus of search_menu: categories whose value is not a list
are skipped, and so is every item that is not a dict or lacks a name.
all_items is the first projection, the corpus-to-item dict item_map is the
pair list read through mapGetLast (the two are built in lockstep in the
source, one append and one assignment per row). -/
def itemEntries (it : JVal) : List (JVal × JVal) :=
  match it with
  | .obj fields =>
      match dictFind fields "name" with
      | some nm => entriesOfItem fields nm
      | none => []
  | _ => []

def buildEntries (menu_data : List (String × JVal)) : List (JVal × JVal) :=
  menu_data.flatMap (fun cat =>
    match cat.2 with
    | .arr items => items.flatMap itemEntries
    | _ => [])

/-- Modelled from the spec: process.extractOne of fuzzywuzzy (spec section
4.3, extract_best) scores the query against every candidate with the
scorer and returns the best candidate with its score, ties resolving to
the first candidate in iteration order; none on an empty candidate list.
The scorer `sc` is the external WRatio blend, kept abstract; candidates
are compared through their Python string form. -/
def extractOne (sc : String → String → Nat) (query : String) (choices : List JVal) :
    Option (JVal × Nat) :=
  choices.foldl
    (fun acc c =>
      match acc with
      | none => some (c, sc query (pyToStr c))
      | some (b, bs) => if sc query (pyToStr c) > bs then some (c, sc query (pyToStr c)) else some (b, bs))
    none

/-- The exceptions the source can actually raise in search_menu, all outside
its try/except (which only wraps the extractOne call): a dict write with an
unhashable key (a JSON array or object used as an item name, a truthy
description, or a flavour name) raises TypeError at lines 246, 257, 273-276,
and calling .items() on a catalog value that is not a dict raises
AttributeError at line 237. -/
inductive PyErr where
  | typeError
  | attributeError
deriving DecidableEq, Repr

/-- Python hashability of a JSON-shaped value: strings, numbers, booleans
and None are hashable dict keys; lists and dicts are not. -/
def hashable : JVal → Bool
  | .arr _ => false
  | .obj _ => false
  | _ => true

/-- Perform the item_map dict writes of search_menu in program order over
the corpus rows: the first write whose key is unhashable raises TypeError;
otherwise the completed map is the full row list. -/
def writeEntries : List (JVal × JVal) → Except PyErr (List (JVal × JVal))
  | [] => .ok []
  | e :: t =>
      if hashable e.1 then
        match writeEntries t with
        | .ok t2 => .ok (e :: t2)
        | .error err => .error err
      else .error PyErr.typeError

/-- search_menu over an arbitrary catalog value, error paths included:
.items() on a non-dict raises AttributeError; the corpus construction
performs one list append and one dict write per row and raises TypeError
at the first unhashable key; then an empty corpus returns None, and the
best fuzzy candidate, when its score reaches 60, is resolved back to the
owning item name through the corpus-to-item dict (last assignment wins,
per Python dict semantics). The try/except of the source only wraps the
extractOne call, which is total here, so it maps to nothing. -/
def search_menu (sc : String → String → Nat) (user_msg : String)
    (menu_data : JVal) : Except PyErr (Option JVal) :=
  match menu_data with
  | .obj cats =>
      match writeEntries (buildEntries cats) with
      | .error err => .error err
      | .ok entries =>
          if (entries.map Prod.fst).isEmpty then .ok none
          else
            match extractOne sc user_msg (entries.map Prod.fst) with
            | some (m, score) => if score ≥ 60 then .ok (mapGetLast m entries) else .ok none
            | none => .ok none
  | _ => .error PyErr.attributeError

/-- The value search_menu computes on catalogs where no dict write raises
(every corpus key hashable): the non-raising path of the same code. The
menu handler below is modelled on such snapshots; the bridge lemma
search_menu_ok_of_hashable proves search_menu agrees with it there. -/
def searchResolve (sc : String → String → Nat) (user_msg : String)
    (menu_data : List (String × JVal)) : Option JVal :=
  let entries := buildEntries menu_data
  let all_items := entries.map Prod.fst
  if all_items.isEmpty then none
  else
    match extractOne sc user_msg all_items with
    | some (m, score) => if score ≥ 60 then mapGetLast m entries else none
    | none => none

/-- A catalog whose single item is a dict with a name key (so it passes the
shape check and is not skipped) whose name value is a JSON array: the
item_map write on that key raises TypeError in the source. -/
def unhashableNameCat : JVal :=
  JVal.obj [("mains", JVal.arr [JVal.obj [("name", JVal.arr [JVal.str "Wings"])]])]

deriving instance DecidableEq for Except

/-- The item names that contribute a given corpus string, in catalog order;
search_menu resolves that string to the last of them. -/
def contributors (menu_data : List (String × JVal)) (m : JVal) : List JVal :=
  (buildEntries menu_data).filterMap (fun e => if e.1 = m then some e.2 else none)

/-- A two-item catalog whose items share the flavour string bbq. -/
def cat2 : List (String × JVal) :=
  [("mains", JVal.arr
    [JVal.obj [("name", JVal.str "Pizza"), ("flavours", JVal.arr [JVal.str "bbq"])],
     JVal.obj [("name", JVal.str "Wings"), ("flavours", JVal.arr [JVal.str "bbq"])]])]

/-- Canned responses of the source. -/
def greetingsList : List String :=
  ["Hi! 👋 Welcome to Speedy Bites! How can I help you today?",
   "Hello! Welcome to Speedy Bites! 🍽️ What would you like?",
   "Hey there! 👋 Welcome to Speedy Bites! What can I do for you?"]

def farewellsList : List String :=
  ["Bye! Have a great day!", "See you soon!", "Thanks for visiting Speedy Bites!"]

def fallbackMsg : String :=
  "Sorry, I didn't understand that. I can help with menu, timings, branches, or FAQs. 😊"

/-- The read-only data snapshot load_data hands to get_bot_response: the
menu dict, the currency string and the faq/about/branches/hours records. -/
structure BotData where
  menu : List (String × JVal)
  currency : String
  faq : List JVal
  about : List (String × JVal)
  branches : List JVal
  hours : List JVal

def dashes (n : Nat) : String := String.mk (List.replicate n '─')

def heavyRule (n : Nat) : String := String.mk (List.replicate n '━')

/-- Menu prices read as integers (v.get("price", 0) under the dict-with-price
filter); non-numeric price values are below the abstraction of this model
(Python would compare them with its own ordering or raise). -/
def jAsInt : JVal → Int
  | .num n => n
  | _ => 0

def pricesOf (vs : List JVal) : List Int :=
  vs.filterMap (fun v =>
    match v with
    | .obj vf => (dictFind vf "price").map jAsInt
    | _ => none)

def intMinFrom (a : Int) : List Int → Int
  | [] => a
  | x :: xs => intMinFrom (min a x) xs

def intMaxFrom (a : Int) : List Int → Int
  | [] => a
  | x :: xs => intMaxFrom (max a x) xs

/-- Python min over a non-empty list (callers guard non-emptiness). -/
def pyMinI : List Int → Int
  | [] => 0
  | x :: xs => intMinFrom x xs

def pyMaxI : List Int → Int
  | [] => 0
  | x :: xs => intMaxFrom x xs

/-- The full-menu price suffix: a variants price range when the item has a
non-empty variants list with priced entries, else the base price. -/
def fullMenuPriceSuffix (fields : List (String × JVal)) (currency : String) : String :=
  let basePart :=
    match dictFind fields "base_price" with
    | some bp => " — " ++ pyToStr bp ++ " " ++ currency
    | none => ""
  match dictFind fields "variants" with
  | some (.arr vs) =>
      if !vs.isEmpty then
        let prices := pricesOf vs
        if !prices.isEmpty then
          if prices.length = 1 then " — " ++ toString (pyMinI prices) ++ " " ++ currency
          else " — " ++ toString (pyMinI prices) ++ "-" ++ toString (pyMaxI prices) ++ " " ++ currency
        else ""
      else basePart
  | some _ => basePart
  | none => basePart

/-- The full-menu listing (the wants-full branch of the menu handler):
every category with a non-empty item list, items numbered by enumerate
(skipped malformed items still consume their index). -/
def renderFullMenu (menu : List (String × JVal)) (currency : String) : String :=
  let body := menu.foldl (fun resp cat =>
    match cat.2 with
    | .arr items =>
        if items.isEmpty then resp
        else
          resp ++ "📋 **" ++ pyReplace (pyUpper cat.1) "_" " " ++ "** ("
            ++ toString items.length ++ " items)\n" ++ dashes 45 ++ "\n"
            ++ (items.enumFrom 1).foldl (fun acc p =>
                match p.2 with
                | .obj fields =>
                    match dictFind fields "name" with
                    | some nm =>
                        acc ++ toString p.1 ++ ". " ++ pyToStr nm
                          ++ fullMenuPriceSuffix fields currency ++ "\n"
                    | none => acc
                | _ => acc) ""
            ++ "\n"
    | _ => resp) "🍽️ **OUR FULL MENU**\n\n"
  body ++ "💡 Ask me about any dish for details or order now!\n"

def flavourNames (fs : List JVal) : List String :=
  fs.filterMap (fun f =>
    match f with
    | .obj ff => (dictFind ff "name").map pyToStr
    | .str s => some s
    | _ => none)

/-- The single-dish detail card of the live menu handler. -/
def renderItemDetails (fields : List (String × JVal)) (currency : String) : String :=
  let r := "🍽️ **" ++ pyToStr ((dictFind fields "name").getD JVal.jnull) ++ "**\n"
    ++ heavyRule 30 ++ "\n\n"
  let r :=
    match dictFind fields "description" with
    | some d => if pyTruthy d then r ++ "📝 " ++ pyToStr d ++ "\n\n" else r
    | none => r
  let r :=
    match dictFind fields "variants" with
    | some (.arr vs) =>
        if !vs.isEmpty then
          r ++ "💰 **Prices:**\n"
            ++ vs.foldl (fun acc v =>
                match v with
                | .obj vf =>
                    match dictFind vf "size", dictFind vf "price" with
                    | some sz, some pr =>
                        acc ++ "  • " ++ pyToStr sz ++ ": " ++ pyToStr pr ++ " " ++ currency ++ "\n"
                    | _, _ => acc
                | _ => acc) ""
            ++ "\n"
        else r
    | _ => r
  let r :=
    match dictFind fields "flavours" with
    | some (.arr fs) =>
        if !fs.isEmpty then
          let fl := flavourNames fs
          if !fl.isEmpty then r ++ "🌶️ **Flavours:** " ++ String.intercalate ", " fl ++ "\n\n"
          else r
        else r
    | _ => r
  let r :=
    match dictFind fields "addons" with
    | some (.arr adds) =>
        if !adds.isEmpty then
          r ++ "➕ **Addons:**\n"
            ++ adds.foldl (fun acc a =>
                match a with
                | .obj af =>
                    match dictFind af "name", dictFind af "price" with
                    | some n, some p =>
                        acc ++ "  • " ++ pyToStr n ++ " — +" ++ pyToStr p ++ " " ++ currency ++ "\n"
                    | _, _ => acc
                | _ => acc) ""
        else r
    | _ => r
  pyStrip r

/-- The first catalog item whose lowercased name contains the lowercased
matched string, scanning categories then items in order. -/
def findItemFields (m : JVal) (menu : List (String × JVal)) : Option (List (String × JVal)) :=
  menu.findSome? (fun cat =>
    match cat.2 with
    | .arr items =>
        items.findSome? (fun it =>
          match it with
          | .obj fields =>
              match dictFind fields "name" with
              | some nm =>
                  if pyContains (pyLower (pyToStr nm)) (pyLower (pyToStr m)) then some fields
                  else none
              | none => none
          | _ => none)
    | _ => none)

/-- The popular-items price suffix (min price plus, or the base price). -/
def popularPriceSuffix (fields : List (String × JVal)) (currency : String) : String :=
  let basePart :=
    match dictFind fields "base_price" with
    | some bp => " — " ++ pyToStr bp ++ " " ++ currency
    | none => ""
  match dictFind fields "variants" with
  | some (.arr vs) =>
      if !vs.isEmpty then
        let prices := pricesOf vs
        if !prices.isEmpty then " — " ++ toString (pyMinI prices) ++ " " ++ currency ++ "+"
        else ""
      else basePart
  | some _ => basePart
  | none => basePart

/-- The inner loop of the popular-items fallback: append well-formed items
and stop once four are shown. -/
def popularInner (currency : String) : List JVal → Nat → String → String × Nat
  | [], cnt, resp => (resp, cnt)
  | it :: rest, cnt, resp =>
      match it with
      | .obj fields =>
          match dictFind fields "name" with
          | some nm =>
              let resp := resp ++ "• " ++ pyToStr nm ++ popularPriceSuffix fields currency ++ "\n"
              let cnt := cnt + 1
              if cnt ≥ 4 then (resp, cnt) else popularInner currency rest cnt resp
          | none => popularInner currency rest cnt resp
      | _ => popularInner currency rest cnt resp

def popularLoop (currency : String) : List (String × JVal) → Nat → String → String
  | [], _, resp => resp
  | cat :: rest, cnt, resp =>
      match cat.2 with
      | .arr items =>
          if items.isEmpty then popularLoop currency rest cnt resp
          else
            let r := popularInner currency items cnt resp
            if r.2 ≥ 4 then r.1 else popularLoop currency rest r.2 r.1
      | _ => popularLoop currency rest cnt resp

def popularItems (menu : List (String × JVal)) (currency : String) : String :=
  popularLoop currency menu 0 "🍽️ **Popular Items:**\n\n"
    ++ "\n💬 Say **'full menu'** to see everything!\n"

def wantsFullWords : List String :=
  ["full menu", "all menu", "complete menu", "entire menu", "show all", "all dishes", "all items"]

/-- The live menu_query handler (source lines 387-500): unavailable menu,
the wants-full listing, a specific dish found through search_menu (a falsy
match or a match that no item name contains falls back to popular items),
else popular items. The handler calls search_menu in the source; here it
is modelled on snapshots whose corpus keys are hashable, where search_menu
returns exactly .ok of searchResolve (lemma search_menu_ok_of_hashable);
on a snapshot with an unhashable corpus key the source propagates the
TypeError out of get_bot_response instead. -/
def menuHandler (sc : String → String → Nat) (user_msg user_lower : String)
    (menu : List (String × JVal)) (currency : String) : String :=
  if menu.isEmpty then "Sorry, the menu is currently unavailable."
  else if wantsFullWords.any (fun w => pyContains user_lower w) then renderFullMenu menu currency
  else
    match searchResolve sc user_msg menu with
    | some m =>
        if pyTruthy m then
          match findItemFields m menu with
          | some fields => renderItemDetails fields currency
          | none => popularItems menu currency
        else popularItems menu currency
    | none => popularItems menu currency

/-- The live branch_query handler. -/
def branchHandler (branches : List JVal) : String :=
  if branches.isEmpty then "Sorry, branch information is not available."
  else
    pyStrip (branches.foldl (fun resp b =>
      match b with
      | .obj bf =>
          let nameV := (dictFind bf "name").getD (JVal.str "Unknown")
          let cityV := (dictFind bf "city").getD (JVal.str "")
          let addrV := (dictFind bf "address").getD (JVal.str "Not available")
          let phoneV := (dictFind bf "phone").getD (JVal.str "Not available")
          resp ++ "**" ++ pyToStr nameV ++ "**"
            ++ (if pyTruthy cityV then " (" ++ pyToStr cityV ++ ")" else "")
            ++ "\n" ++ "📍 " ++ pyToStr addrV ++ "\n" ++ "📞 " ++ pyToStr phoneV ++ "\n\n"
      | _ => resp) "📍 **OUR BRANCHES:**\n\n")

/-- days_order with Python capitalize applied to each fixed weekday name. -/
def daysOrder : List (String × String) :=
  [("monday", "Monday"), ("tuesday", "Tuesday"), ("wednesday", "Wednesday"),
   ("thursday", "Thursday"), ("friday", "Friday"), ("saturday", "Saturday"),
   ("sunday", "Sunday")]

/-- The live hours_query handler. -/
def hoursHandler (hours : List JVal) : String :=
  if hours.isEmpty then "Sorry, opening hours are not available."
  else
    pyStrip (hours.foldl (fun resp hi =>
      match hi with
      | .obj hf =>
          let bn := (dictFind hf "branch_name").getD (JVal.str "Branch")
          let resp := resp ++ "**" ++ pyToStr bn ++ "**\n" ++ dashes 40 ++ "\n"
          let resp :=
            match dictFind hf "regular" with
            | some (.obj reg) =>
                if !reg.isEmpty then
                  daysOrder.foldl (fun r d =>
                    match dictFind reg d.1 with
                    | some hv => r ++ d.2 ++ ": " ++ pyToStr hv ++ "\n"
                    | none => r) resp
                else resp
            | _ => resp
          let resp :=
            match dictFind hf "special_notes" with
            | some sn => if pyTruthy sn then resp ++ "\nℹ️ " ++ pyToStr sn ++ "\n" else resp
            | none => resp
          resp ++ "\n"
      | _ => resp) "🕐 **OPENING HOURS:**\n\n")

def noAnswerMsg : String :=
  "Sorry, I don't have an answer for that. You can ask about delivery, vegetarian options, halal food, or our services."

/-- One step of the FAQ best-match loop: a dict entry is scored by
token_set_ratio of the lowercased user message against its lowercased
question; a strictly better score replaces the best answer so far. -/
def faqStep (fz : Fuzz) (user_lower : String) (acc : Nat × Option JVal) (q : JVal) :
    Nat × Option JVal :=
  match q with
  | .obj qf =>
      let question := (dictFind qf "question").getD (JVal.str "")
      let score := fz.setRatio user_lower (pyLower (pyToStr question))
      if score > acc.1 then (score, some ((dictFind qf "answer").getD (JVal.str "")))
      else acc
  | _ => acc

/-- The live faq_query handler (the FAQ resolver, source lines 558-581). -/
def faqHandler (fz : Fuzz) (user_lower : String) (faqs : List JVal) : String :=
  if faqs.isEmpty then "Sorry, I don't have FAQ information available."
  else
    let r := faqs.foldl (faqStep fz user_lower) (0, none)
    if r.1 > 60 then pyToStr (r.2.getD (JVal.str "")) else noAnswerMsg

/-- The live about handler. -/
def aboutHandler (about : List (String × JVal)) : String :=
  if about.isEmpty then "Sorry, restaurant information is not available."
  else
    let r := "**" ++ pyToStr ((dictFind about "name").getD (JVal.str "Speedy Bites")) ++ "**\n\n"
    let r :=
      match dictFind about "description" with
      | some d => if pyTruthy d then r ++ pyToStr d ++ "\n\n" else r
      | none => r
    let r :=
      match dictFind about "mission" with
      | some m => if pyTruthy m then r ++ "🎯 **Mission:** " ++ pyToStr m ++ "\n\n" else r
      | none => r
    pyStrip r

/-- get_bot_response up to the unconditional fallback return of line 598.
Each Python handler block always returns, so the sequence of if statements
is an if/else chain; random.choice is the injected `pick`, the extractOne
scorer the injected `sc`. -/
def get_bot_response (fz : Fuzz) (sc : String → String → Nat) (pick : List String → String)
    (user_msg : String) (data : BotData) : String :=
  let intent := detect_intent fz user_msg
  let user_lower := pyStrip (pyLower user_msg)
  if intent = "greeting" then pick greetingsList
  else if intent = "farewell" then pick farewellsList
  else if intent = "menu_query" then menuHandler sc user_msg user_lower data.menu data.currency
  else if intent = "branch_query" then branchHandler data.branches
  else if intent = "hours_query" then hoursHandler data.hours
  else if intent = "faq_query" then faqHandler fz user_lower data.faq
  else if intent = "about" then aboutHandler data.about
  else fallbackMsg

/-- A guarded clause of a Python function body read as a sequence of
early-return statements: some means the clause returns, none means control
falls through to the next statement. -/
def runClauses (cs : List (String → Option String)) (msg : String) : Option String :=
  match cs with
  | [] => none
  | c :: rest =>
      match c msg with
      | some r => some r
      | none => runClauses rest msg

/-- The seven live handler clauses of get_bot_response, in source order,
each firing exactly when the detected intent equals its label. -/
def liveClauses (fz : Fuzz) (sc : String → String → Nat) (pick : List String → String)
    (data : BotData) : List (String → Option String) :=
  [fun msg => if detect_intent fz msg = "greeting" then some (pick greetingsList) else none,
   fun msg => if detect_intent fz msg = "farewell" then some (pick farewellsList) else none,
   fun msg =>
     if detect_intent fz msg = "menu_query" then
       some (menuHandler sc msg (pyStrip (pyLower msg)) data.menu data.currency)
     else none,
   fun msg => if detect_intent fz msg = "branch_query" then some (branchHandler data.branches) else none,
   fun msg => if detect_intent fz msg = "hours_query" then some (hoursHandler data.hours) else none,
   fun msg =>
     if detect_intent fz msg = "faq_query" then
       some (faqHandler fz (pyStrip (pyLower msg)) data.faq)
     else none,
   fun msg => if detect_intent fz msg = "about" then some (aboutHandler data.about) else none]

/-- The seven intent labels get_bot_response handles before the fallback. -/
def handledIntents : List String :=
  ["greeting", "farewell", "menu_query", "branch_query", "hours_query", "faq_query", "about"]

/-- A small sample snapshot for concrete witnesses. -/
def sampleData : BotData :=
  { menu := cat2
    currency := "PKR"
    faq := [JVal.obj [("question", JVal.str "Do you deliver?"), ("answer", JVal.str "Yes, we deliver.")]]
    about := [("name", JVal.str "Speedy Bites")]
    branches := [JVal.obj [("name", JVal.str "Main"), ("address", JVal.str "1 Road"), ("phone", JVal.str "123")]]
    hours := [JVal.obj [("branch_name", JVal.str "Main"), ("regular", JVal.obj [("monday", JVal.str "9-5")])]] }

def samplePick (l : List String) : String := l.headD ""

/-- An item passes the shape check of the corpus loop exactly when it is a
dict with a name key. -/
def isItemWF : JVal → Bool
  | .obj fields => (dictFind fields "name").isSome
  | _ => false

/-- The catalog with non-list categories dropped and malformed items
filtered out: search_menu must not distinguish it from the raw catalog. -/
def wellFormedItems (menu_data : List (String × JVal)) : List (String × JVal) :=
  menu_data.filterMap (fun cat =>
    match cat.2 with
    | .arr items => some (cat.1, JVal.arr (items.filter isItemWF))
    | _ => none)

/-- The name fields of the well-formed catalog items, in catalog order. -/
def catalogNames (menu_data : List (String × JVal)) : List JVal :=
  menu_data.flatMap (fun cat =>
    match cat.2 with
    | .arr items =>
        items.filterMap (fun it =>
          match it with
          | .obj fields => dictFind fields "name"
          | _ => none)
    | _ => [])

/-- Maximum of a list of scores (Python max over a non-negative list). -/
def maxList (l : List Nat) : Nat := l.foldl max 0

/-- A FAQ record as a JSON object, for stating the FAQ resolver contract
over (question, answer) pairs. -/
def mkFaq (e : String × String) : JVal :=
  JVal.obj [("question", JVal.str e.1), ("answer", JVal.str e.2)]

/-- The score the FAQ loop assigns to a (question, answer) pair. -/
def fScore (fz : Fuzz) (user_lower : String) (e : String × String) : Nat :=
  fz.setRatio user_lower (pyLower e.1)

/-! ## Generic fold and maximum lemmas -/

theorem foldl_init_le {α : Type} (step : Nat → α → Nat) (hge : ∀ a x, a ≤ step a x)
    (l : List α) : ∀ init : Nat, init ≤ l.foldl step init := by
  induction l with
  | nil => intro init; simp
  | cons x xs ih =>
      intro init
      exact le_trans (hge init x) (by simpa using ih (step init x))

theorem foldl_le_of_step_le {α : Type} (step : Nat → α → Nat) (B : Nat)
    (hstep : ∀ a x, a ≤ B → step a x ≤ B) (l : List α) :
    ∀ init : Nat, init ≤ B → l.foldl step init ≤ B := by
  induction l with
  | nil => intro init h; simpa
  | cons x xs ih =>
      intro init h
      simpa using ih (step init x) (hstep init x h)

theorem foldl_ge_of_mem {α : Type} (step : Nat → α → Nat) (hge : ∀ a x, a ≤ step a x)
    (l : List α) (x : α) (hx : x ∈ l) (B : Nat) (hB : ∀ a, B ≤ step a x) (init : Nat) :
    B ≤ l.foldl step init := by
  obtain ⟨s, t, rfl⟩ := List.append_of_mem hx
  rw [List.foldl_append, List.foldl_cons]
  exact le_trans (hB _) (foldl_init_le step hge t _)

theorem foldl_max_le (l : List Nat) (B : Nat) (h : ∀ x ∈ l, x ≤ B) :
    ∀ init : Nat, init ≤ B → l.foldl max init ≤ B := by
  induction l with
  | nil => intro init hi; simpa
  | cons x xs ih =>
      intro init hi
      simpa using ih (fun y hy => h y (by simp [hy])) (max init x)
        (max_le hi (h x (by simp)))

theorem mem_le_foldl_max (l : List Nat) (x : Nat) (hx : x ∈ l) (init : Nat) :
    x ≤ l.foldl max init :=
  foldl_ge_of_mem max (fun a y => le_max_left a y) l x hx x (fun a => le_max_right a x) init

theorem foldl_max_eq (l : List Nat) : ∀ a : Nat, l.foldl max a = max a (maxList l) := by
  induction l with
  | nil => intro a; simp [maxList]
  | cons x xs ih =>
      intro a
      simp only [maxList, List.foldl_cons] at *
      rw [ih (max a x), ih (max 0 x)]
      omega

theorem maxList_cons (x : Nat) (l : List Nat) : maxList (x :: l) = max x (maxList l) := by
  show List.foldl max 0 (x :: l) = max x (maxList l)
  rw [List.foldl_cons, foldl_max_eq l (max 0 x)]
  omega

theorem maxList_append (l1 l2 : List Nat) :
    maxList (l1 ++ l2) = max (maxList l1) (maxList l2) := by
  simp only [maxList, List.foldl_append]
  rw [foldl_max_eq l2 (List.foldl max 0 l1)]
  rfl

theorem maxList_mem (l : List Nat) (h : l ≠ []) : maxList l ∈ l := by
  induction l with
  | nil => exact absurd rfl h
  | cons x xs ih =>
      rw [maxList_cons]
      rcases eq_or_ne xs [] with rfl | hne
      · simp [maxList]
      · rcases Nat.le_total x (maxList xs) with hle | hle
        · rw [Nat.max_eq_right hle]; exact List.mem_cons_of_mem x (ih hne)
        · rw [Nat.max_eq_left hle]; exact List.mem_cons_self x xs

theorem maxList_le (l : List Nat) (B : Nat) (h : ∀ x ∈ l, x ≤ B) : maxList l ≤ B :=
  foldl_max_le l B h 0 (Nat.zero_le B)

/-! ## Score bounds for calculate_intent_score and detectScore -/

theorem bestRatioFor_le (fz : Fuzz) (uw : List String) (kw : String) :
    bestRatioFor fz uw kw ≤ 100 := by
  unfold bestRatioFor
  refine foldl_le_of_step_le _ 100 ?_ uw 0 (by omega)
  intro a x ha
  dsimp only
  split
  · exact max_le ha (fz.ratio_le x kw)
  · exact ha

theorem calculate_scores_le (fz : Fuzz) (msg : String) (kws : List String) :
    ∀ x ∈ (kws.map (fun kw =>
        if kw ∈ (pySplit msg).dedup then 100 else bestRatioFor fz (pySplit msg).dedup kw))
      ++ ((kws.filter (fun kw => (pySplit kw).length > 1)).map (fun kw => fz.pratio msg kw)),
      x ≤ 100 := by
  intro x hx
  rcases List.mem_append.mp hx with h | h
  · obtain ⟨kw, _, rfl⟩ := List.mem_map.mp h
    split
    · omega
    · exact bestRatioFor_le fz _ kw
  · obtain ⟨kw, _, rfl⟩ := List.mem_map.mp h
    exact fz.pratio_le msg kw

theorem calculate_intent_score_le (fz : Fuzz) (msg : String) (kws : List String) :
    calculate_intent_score fz msg kws ≤ 100 := by
  unfold calculate_intent_score
  simp only
  split
  · omega
  · exact foldl_max_le _ 100 (calculate_scores_le fz msg kws) 0 (by omega)

theorem overrideStep_ge (norm : String) (a : Nat) (kw : String) : a ≤ overrideStep norm a kw := by
  unfold overrideStep
  split
  · exact le_max_left a 100
  · split
    · exact le_max_left a 90
    · exact le_refl a

theorem overrideStep_le (norm : String) (a : Nat) (kw : String) (h : a ≤ 100) :
    overrideStep norm a kw ≤ 100 := by
  unfold overrideStep
  split
  · exact max_le h (by omega)
  · split
    · exact max_le h (by omega)
    · exact h

theorem detectScore_le (fz : Fuzz) (norm : String) (kws : List String) :
    detectScore fz norm kws ≤ 100 :=
  foldl_le_of_step_le (overrideStep norm) 100 (fun a x ha => overrideStep_le norm a x ha) kws
    (calculate_intent_score fz norm kws) (calculate_intent_score_le fz norm kws)

theorem detectScore_ge_calculate (fz : Fuzz) (norm : String) (kws : List String) :
    calculate_intent_score fz norm kws ≤ detectScore fz norm kws :=
  foldl_init_le (overrideStep norm) (overrideStep_ge norm) kws _

theorem detectScore_eq_100_of_padded (fz : Fuzz) (norm : String) (kws : List String)
    (kw : String) (hkw : kw ∈ kws)
    (hc : pyContains (" " ++ norm ++ " ") (" " ++ kw ++ " ") = true) :
    detectScore fz norm kws = 100 := by
  refine le_antisymm (detectScore_le fz norm kws) ?_
  refine foldl_ge_of_mem (overrideStep norm) (overrideStep_ge norm) kws kw hkw 100 ?_ _
  intro a
  unfold overrideStep
  rw [if_pos hc]
  exact le_max_right a 100

theorem detectScore_ge_90_of_substring (fz : Fuzz) (norm : String) (kws : List String)
    (kw : String) (hkw : kw ∈ kws) (hlen : kw.length > 3) (hc : pyContains norm kw = true) :
    90 ≤ detectScore fz norm kws := by
  refine foldl_ge_of_mem (overrideStep norm) (overrideStep_ge norm) kws kw hkw 90 ?_ _
  intro a
  unfold overrideStep
  split
  · exact le_trans (by omega) (le_max_right a 100)
  · rw [if_pos ⟨hlen, hc⟩]
    exact le_max_right a 90

theorem calculate_eq_100_of_member (fz : Fuzz) (msg : String) (kws : List String)
    (kw : String) (hkw : kw ∈ kws) (hmem : kw ∈ (pySplit msg).dedup) :
    calculate_intent_score fz msg kws = 100 := by
  unfold calculate_intent_score
  simp only
  have h100 : (100 : Nat) ∈ kws.map (fun kw =>
      if kw ∈ (pySplit msg).dedup then 100 else bestRatioFor fz (pySplit msg).dedup kw) :=
    List.mem_map.mpr ⟨kw, hkw, by rw [if_pos hmem]⟩
  have hmem' : (100 : Nat) ∈ (kws.map (fun kw =>
      if kw ∈ (pySplit msg).dedup then 100 else bestRatioFor fz (pySplit msg).dedup kw))
      ++ ((kws.filter (fun kw => (pySplit kw).length > 1)).map (fun kw => fz.pratio msg kw)) :=
    List.mem_append.mpr (Or.inl h100)
  rw [if_neg (by simp only [List.isEmpty_iff]; exact List.ne_nil_of_mem hmem')]
  exact le_antisymm (foldl_max_le _ 100 (calculate_scores_le fz msg kws) 0 (by omega))
    (mem_le_foldl_max _ 100 hmem' 0)

theorem calculate_no_exact (fz : Fuzz) (msg : String) (kws : List String)
    (h : ∀ kw ∈ kws, kw ∉ (pySplit msg).dedup) :
    calculate_intent_score fz msg kws =
      max (maxList (kws.map (bestRatioFor fz (pySplit msg).dedup)))
          (maxList ((kws.filter (fun kw => (pySplit kw).length > 1)).map
            (fun kw => fz.pratio msg kw))) := by
  unfold calculate_intent_score
  simp only
  rw [List.map_congr_left (fun kw hkw => if_neg (h kw hkw))]
  split
  · rename_i hemp
    obtain ⟨h1, h2⟩ := List.append_eq_nil.mp (List.isEmpty_iff.mp hemp)
    rw [h1, h2]
    rfl
  · exact maxList_append _ _

/-! ## Last-assignment dict lemmas for the search corpus -/

theorem getLast?_cons_eq {α : Type} (x : α) (l : List α) :
    (x :: l).getLast? = ((l.getLast?).elim (some x) some) := by
  cases l with
  | nil => rfl
  | cons b bs =>
      rw [List.getLast?_cons_cons]
      cases h : (b :: bs).getLast? with
      | none => simp at h
      | some v => rfl

theorem mapGetLast_eq_getLast (k : JVal) (l : List (JVal × JVal)) :
    mapGetLast k l = (l.filterMap (fun e => if e.1 = k then some e.2 else none)).getLast? := by
  induction l with
  | nil => rfl
  | cons e t ih =>
      simp only [mapGetLast]
      by_cases hek : e.1 = k
      · rw [@List.filterMap_cons_some (JVal × JVal) JVal
          (fun e => if e.1 = k then some e.2 else none) e t e.2 (by simp [hek]),
          getLast?_cons_eq]
        cases h : mapGetLast k t with
        | some v =>
            have h2 : (t.filterMap (fun e => if e.1 = k then some e.2 else none)).getLast? = some v :=
              ih.symm.trans h
            rw [h2]
            rfl
        | none =>
            have h2 : (t.filterMap (fun e => if e.1 = k then some e.2 else none)).getLast? = none :=
              ih.symm.trans h
            rw [h2, if_pos hek]
            rfl
      · rw [@List.filterMap_cons_none (JVal × JVal) JVal
          (fun e => if e.1 = k then some e.2 else none) e t (by simp [hek])]
        cases h : mapGetLast k t with
        | some v => rw [← ih]; exact h.symm
        | none => rw [← ih, if_neg hek]; exact h.symm

theorem mapGetLast_mem (k : JVal) (l : List (JVal × JVal)) (v : JVal)
    (h : mapGetLast k l = some v) : (k, v) ∈ l := by
  induction l with
  | nil => simp [mapGetLast] at h
  | cons e t ih =>
      obtain ⟨k1, v1⟩ := e
      simp only [mapGetLast] at h
      cases ht : mapGetLast k t with
      | some w =>
          rw [ht] at h
          injection h with hw
          subst hw
          exact List.mem_cons_of_mem _ (ih ht)
      | none =>
          rw [ht] at h
          by_cases hek : k1 = k
          · rw [if_pos (by simpa using hek)] at h
            injection h with hw
            subst hw
            subst hek
            exact List.mem_cons_self _ _
          · rw [if_neg (by simpa using hek)] at h
            cases h

/-! ## Corpus construction lemmas -/

theorem entriesOfItem_snd (fields : List (String × JVal)) (nm : JVal) :
    ∀ p ∈ entriesOfItem fields nm, p.2 = nm := by
  intro p hp
  unfold entriesOfItem at hp
  simp only [List.mem_append] at hp
  rcases hp with ((h | h) | h) | h
  · simp only [List.mem_singleton] at h
    subst h
    rfl
  · split at h
    · split at h
      · simp only [List.mem_singleton] at h
        subst h
        rfl
      · simp at h
    · simp at h
  · split at h
    · rw [List.mem_flatMap] at h
      obtain ⟨v, _, h⟩ := h
      split at h
      · split at h
        · simp only [List.mem_singleton] at h
          subst h
          rfl
        · simp at h
      · simp at h
    · simp at h
  · split at h
    · rw [List.mem_flatMap] at h
      obtain ⟨f, _, h⟩ := h
      split at h
      · split at h
        · simp only [List.mem_cons, List.not_mem_nil, or_false] at h
          rcases h with h | h <;> (subst h; rfl)
        · simp at h
      · simp only [List.mem_cons, List.not_mem_nil, or_false] at h
        rcases h with h | h <;> (subst h; rfl)
      · simp at h
    · simp at h

theorem itemEntries_snd (it : JVal) : ∀ p ∈ itemEntries it, ∃ nm, p.2 = nm ∧
    (match it with
     | .obj fields => dictFind fields "name" = some nm
     | _ => False) := by
  intro p hp
  unfold itemEntries at hp
  split at hp
  · rename_i fields
    split at hp
    · rename_i nm heq
      exact ⟨nm, entriesOfItem_snd fields nm p hp, heq⟩
    · simp at hp
  · simp at hp

theorem buildEntries_snd_mem (menu : List (String × JVal)) :
    ∀ e ∈ buildEntries menu, e.2 ∈ catalogNames menu := by
  intro e he
  unfold buildEntries at he
  rw [List.mem_flatMap] at he
  obtain ⟨cat, hcat, he⟩ := he
  unfold catalogNames
  rw [List.mem_flatMap]
  refine ⟨cat, hcat, ?_⟩
  cases h2 : cat.2
  case arr items =>
      rw [h2] at he
      simp only at he
      rw [List.mem_flatMap] at he
      obtain ⟨it, hit, he⟩ := he
      obtain ⟨nm, hnm, hfind⟩ := itemEntries_snd it e he
      simp only
      rw [List.mem_filterMap]
      refine ⟨it, hit, ?_⟩
      cases it with
      | obj fields => simp only at hfind ⊢; rw [hfind, hnm]
      | str s => simp at hfind
      | num n => simp at hfind
      | jbool b => simp at hfind
      | jnull => simp at hfind
      | arr l => simp at hfind
  all_goals (rw [h2] at he; simp at he)

theorem itemEntries_eq_nil (it : JVal) (h : isItemWF it = false) : itemEntries it = [] := by
  cases it with
  | obj fields =>
      simp only [isItemWF] at h
      cases hd : dictFind fields "name" with
      | some nm => rw [hd] at h; simp at h
      | none => simp [itemEntries, hd]
  | str s => rfl
  | num n => rfl
  | jbool b => rfl
  | jnull => rfl
  | arr l => rfl

theorem flatMap_filter_itemEntries (items : List JVal) :
    (items.filter isItemWF).flatMap itemEntries = items.flatMap itemEntries := by
  induction items with
  | nil => rfl
  | cons it rest ih =>
      by_cases h : isItemWF it = true
      · rw [List.filter_cons_of_pos h, List.flatMap_cons, List.flatMap_cons, ih]
      · rw [List.filter_cons_of_neg h, List.flatMap_cons,
          itemEntries_eq_nil it (by simpa using h), ih]
        rfl

theorem buildEntries_cons (a : String × JVal) (l : List (String × JVal)) :
    buildEntries (a :: l) =
      (match a.2 with | JVal.arr items => items.flatMap itemEntries | _ => [])
        ++ buildEntries l := by
  unfold buildEntries
  rw [List.flatMap_cons]

theorem wellFormedItems_cons (a : String × JVal) (l : List (String × JVal)) :
    wellFormedItems (a :: l) =
      (match a.2 with
       | JVal.arr items => [(a.1, JVal.arr (items.filter isItemWF))]
       | _ => []) ++ wellFormedItems l := by
  unfold wellFormedItems
  rw [List.filterMap_cons]
  cases h2 : a.2 <;> simp

theorem buildEntries_wf (menu : List (String × JVal)) :
    buildEntries (wellFormedItems menu) = buildEntries menu := by
  induction menu with
  | nil => rfl
  | cons cat rest ih =>
      rw [wellFormedItems_cons, buildEntries_cons]
      cases h2 : cat.2
      case arr items =>
        simp only [List.singleton_append]
        rw [buildEntries_cons]
        simp only
        rw [flatMap_filter_itemEntries, ih]
      all_goals (simp only [List.nil_append]; rw [ih])

/-! ## The FAQ best-match loop -/

theorem faqStep_mkFaq (fz : Fuzz) (u : String) (acc : Nat × Option JVal) (e : String × String) :
    faqStep fz u acc (mkFaq e) =
      if fScore fz u e > acc.1 then (fScore fz u e, some (JVal.str e.2)) else acc := by
  rfl

theorem faqFold_inv (fz : Fuzz) (u : String) (qas : List (String × String)) :
    ∀ (b0 : Nat) (m0 : Option JVal),
      (qas.map mkFaq).foldl (faqStep fz u) (b0, m0) =
        if b0 < maxList (qas.map (fScore fz u))
        then (maxList (qas.map (fScore fz u)),
              (qas.find? (fun e => fScore fz u e = maxList (qas.map (fScore fz u)))).map
                (fun e => JVal.str e.2))
        else (b0, m0) := by
  induction qas with
  | nil =>
      intro b0 m0
      simp [maxList]
  | cons e t ih =>
      intro b0 m0
      rw [List.map_cons, List.foldl_cons, faqStep_mkFaq]
      have hM : maxList ((e :: t).map (fScore fz u)) =
          max (fScore fz u e) (maxList (t.map (fScore fz u))) := by
        rw [List.map_cons, maxList_cons]
      by_cases hs : fScore fz u e > b0
      · rw [if_pos hs, ih (fScore fz u e) (some (JVal.str e.2))]
        by_cases ht : fScore fz u e < maxList (t.map (fScore fz u))
        · rw [if_pos ht, if_pos (by rw [hM]; omega)]
          have hne : ¬ (fScore fz u e = max (fScore fz u e) (maxList (t.map (fScore fz u)))) := by
            omega
          rw [hM, List.find?_cons_of_neg _ (by simpa using hne)]
          have : max (fScore fz u e) (maxList (t.map (fScore fz u)))
              = maxList (t.map (fScore fz u)) := by omega
          rw [this]
        · rw [if_neg ht, if_pos (by rw [hM]; omega)]
          have hmx : max (fScore fz u e) (maxList (t.map (fScore fz u))) = fScore fz u e := by
            omega
          rw [hM, hmx, List.find?_cons_of_pos _ (by simp)]
          rfl
      · rw [if_neg hs, ih b0 m0]
        by_cases ht : b0 < maxList (t.map (fScore fz u))
        · rw [if_pos ht, if_pos (by rw [hM]; omega)]
          have hne : ¬ (fScore fz u e = max (fScore fz u e) (maxList (t.map (fScore fz u)))) := by
            omega
          rw [hM, List.find?_cons_of_neg _ (by simpa using hne)]
          have : max (fScore fz u e) (maxList (t.map (fScore fz u)))
              = maxList (t.map (fScore fz u)) := by omega
          rw [this]
        · rw [if_neg ht, if_neg (by rw [hM]; omega)]

theorem bestIntent_ne_unknown (gS fS hS bS aS qS mS M : Nat) :
    ((([("greeting", gS), ("farewell", fS), ("hours_query", hS), ("branch_query", bS),
        ("about", aS), ("faq_query", qS), ("menu_query", mS)].find?
          (fun p => p.2 = M)).map Prod.fst).getD "greeting") ≠ "unknown" := by
  cases hf : List.find? (fun p => p.2 = M)
      [("greeting", gS), ("farewell", fS), ("hours_query", hS), ("branch_query", bS),
       ("about", aS), ("faq_query", qS), ("menu_query", mS)] with
  | none => simp
  | some q =>
      have hq := List.mem_of_find?_eq_some hf
      simp only [List.mem_cons, List.not_mem_nil, or_false] at hq
      rcases hq with rfl | rfl | rfl | rfl | rfl | rfl | rfl <;> simp

/-- C9: the greeting rule is the first rule of the ordered decision policy,
so a greeting score above 80 decides the intent irrespective of every other
score; the witness instantiates it at the utterance Hi there, whose
normalized text contains the keyword hi as a standalone token. -/
theorem detect_intent_greeting_first (fz : Fuzz) (msg : String)
    (h : detectScore fz (normalize_text msg) greetingKws > 80) :
    detect_intent fz msg = "greeting" := by
  simp only [detect_intent]
  rw [if_pos h]

theorem detect_intent_greeting_first_ok :
    detectScore trivialFuzz (normalize_text "Hi there!") greetingKws > 80
    ∧ detect_intent trivialFuzz "Hi there!" = "greeting" :=
  ⟨by decide, detect_intent_greeting_first trivialFuzz "Hi there!" (by decide)⟩

/-- C3: once the greeting, farewell, branch and faq rules have declined, a
hours score above 70 with a menu score also above 70 yields hours_query
exactly when the normalized text contains one of open, close, timing, hour
(otherwise the later rules run, and the menu rule returns menu_query); with
a menu score at most 70 the hours rule returns hours_query unconditionally. -/
theorem detect_intent_hours_rule (fz : Fuzz) (msg : String)
    (hg : detectScore fz (normalize_text msg) greetingKws ≤ 80)
    (hf : detectScore fz (normalize_text msg) farewellKws ≤ 80)
    (hb : ¬ (detectScore fz (normalize_text msg) branchKws > 70
          ∧ ¬ (detectScore fz (normalize_text msg) menuKws
                > detectScore fz (normalize_text msg) branchKws)))
    (hq : detectScore fz (normalize_text msg) faqKws ≤ 70) :
    (detectScore fz (normalize_text msg) hoursKws > 70 →
      detectScore fz (normalize_text msg) menuKws > 70 →
        (detect_intent fz msg = "hours_query"
          ↔ (hoursWords.any (fun w => pyContains (normalize_text msg) w)) = true))
    ∧ (detectScore fz (normalize_text msg) hoursKws > 70 →
        detectScore fz (normalize_text msg) menuKws ≤ 70 →
          detect_intent fz msg = "hours_query") := by
  constructor
  · intro hh hm
    simp only [detect_intent]
    rw [if_neg (by omega), if_neg (by omega), if_neg hb, if_neg (by omega),
      if_pos hh, if_pos hm]
    by_cases ha : (hoursWords.any (fun w => pyContains (normalize_text msg) w)) = true
    · rw [if_pos ha]
      simp [ha]
    · rw [if_neg ha]
      rw [if_neg (show ¬ (detectScore fz (normalize_text msg) aboutKws > 70
            ∧ detectScore fz (normalize_text msg) menuKws < 60) by omega)]
      rw [if_pos (show detectScore fz (normalize_text msg) menuKws > 50 by omega)]
      exact iff_of_false (by decide) (by simpa using ha)
  · intro hh hm
    simp only [detect_intent]
    rw [if_neg (by omega), if_neg (by omega), if_neg hb, if_neg (by omega),
      if_pos hh, if_neg (by omega)]

theorem detect_intent_hours_rule_ok :
    detectScore trivialFuzz (normalize_text "timings") hoursKws > 70
    ∧ detectScore trivialFuzz (normalize_text "timings") menuKws ≤ 70
    ∧ detect_intent trivialFuzz "timings" = "hours_query" :=
  ⟨by decide, by decide,
   (detect_intent_hours_rule trivialFuzz "timings" (by decide) (by decide) (by decide)
     (by decide)).2 (by decide) (by decide)⟩

theorem tail_ne_unknown (aS mS maxS : Nat) (best : String) (hbest : best ≠ "unknown")
    (len : Nat) (h4 : len ≤ 4) :
    (if aS > 70 ∧ mS < 60 then "about"
     else if mS > 50 then "menu_query"
     else if maxS > 50 then best
     else if len ≤ 4 then "menu_query" else "unknown") ≠ "unknown" := by
  by_cases c1 : aS > 70 ∧ mS < 60
  · rw [if_pos c1]; decide
  · rw [if_neg c1]
    by_cases c2 : mS > 50
    · rw [if_pos c2]; decide
    · rw [if_neg c2]
      by_cases c3 : maxS > 50
      · rw [if_pos c3]; exact hbest
      · rw [if_neg c3, if_pos h4]; decide

/-- C8: an utterance whose normalized text has at most four tokens never
classifies as unknown (the unknown return sits behind the length guard),
and when no earlier rule fires the length rule returns menu_query. Every
earlier rule has a firing threshold above 50 and the argmax rule fires as
soon as any score exceeds 50, so no earlier rule returning means exactly
that every intent score is at most 50. -/
theorem detect_intent_short_default (fz : Fuzz) (msg : String)
    (h4 : (pySplit (normalize_text msg)).length ≤ 4) :
    detect_intent fz msg ≠ "unknown"
    ∧ ((detectScore fz (normalize_text msg) greetingKws ≤ 50
        ∧ detectScore fz (normalize_text msg) farewellKws ≤ 50
        ∧ detectScore fz (normalize_text msg) hoursKws ≤ 50
        ∧ detectScore fz (normalize_text msg) branchKws ≤ 50
        ∧ detectScore fz (normalize_text msg) aboutKws ≤ 50
        ∧ detectScore fz (normalize_text msg) faqKws ≤ 50
        ∧ detectScore fz (normalize_text msg) menuKws ≤ 50) →
      detect_intent fz msg = "menu_query") := by
  have hmax : ∀ g f h b a q m : Nat, g ≤ 50 → f ≤ 50 → h ≤ 50 → b ≤ 50 → a ≤ 50 →
      q ≤ 50 → m ≤ 50 →
      (List.map Prod.snd [("greeting", g), ("farewell", f), ("hours_query", h),
        ("branch_query", b), ("about", a), ("faq_query", q),
        ("menu_query", m)]).foldl max 0 ≤ 50 := by
    intro g f h b a q m hg hf hh hb ha hq hm
    simp only [List.map_cons, List.map_nil, List.foldl_cons, List.foldl_nil]
    omega
  constructor
  · simp only [detect_intent]
    by_cases c1 : detectScore fz (normalize_text msg) greetingKws > 80
    · rw [if_pos c1]; decide
    · rw [if_neg c1]
      by_cases c2 : detectScore fz (normalize_text msg) farewellKws > 80
      · rw [if_pos c2]; decide
      · rw [if_neg c2]
        by_cases c3 : detectScore fz (normalize_text msg) branchKws > 70
            ∧ ¬ (detectScore fz (normalize_text msg) menuKws
                  > detectScore fz (normalize_text msg) branchKws)
        · rw [if_pos c3]; decide
        · rw [if_neg c3]
          by_cases c4 : detectScore fz (normalize_text msg) faqKws > 70
          · rw [if_pos c4]; decide
          · rw [if_neg c4]
            by_cases c5 : detectScore fz (normalize_text msg) hoursKws > 70
            · rw [if_pos c5]
              by_cases c6 : detectScore fz (normalize_text msg) menuKws > 70
              · rw [if_pos c6]
                by_cases c7 : (hoursWords.any
                    (fun w => pyContains (normalize_text msg) w)) = true
                · rw [if_pos c7]; decide
                · rw [if_neg c7]
                  exact tail_ne_unknown _ _ _ _
                    (bestIntent_ne_unknown _ _ _ _ _ _ _ _) _ h4
              · rw [if_neg c6]; decide
            · rw [if_neg c5]
              exact tail_ne_unknown _ _ _ _
                (bestIntent_ne_unknown _ _ _ _ _ _ _ _) _ h4
  · rintro ⟨h1, h2, h3, h5, h6, h7, h8⟩
    have hms := hmax _ _ _ _ _ _ _ h1 h2 h3 h5 h6 h7 h8
    simp only [detect_intent]
    rw [if_neg (by omega), if_neg (by omega), if_neg (by omega : ¬ (_ ∧ ¬ _)),
      if_neg (by omega), if_neg (by omega), if_neg (by omega : ¬ (_ ∧ _)),
      if_neg (by omega), if_neg (by omega), if_pos h4]

theorem detect_intent_short_default_ok :
    (pySplit (normalize_text "")).length ≤ 4
    ∧ detect_intent trivialFuzz "" ≠ "unknown"
    ∧ detect_intent trivialFuzz "" = "menu_query" :=
  ⟨by decide, (detect_intent_short_default trivialFuzz "" (by decide)).1,
   (detect_intent_short_default trivialFuzz "" (by decide)).2
     ⟨by decide, by decide, by decide, by decide, by decide, by decide, by decide⟩⟩

/-- C5: inside detect_intent, any keyword of an intent present with
surrounding spaces in the space-padded normalized text forces that
intent's score to exactly 100, and any keyword longer than three
characters present as a raw substring of the normalized text forces the
score to at least 90. Holds for every keyword list, hence for every
intent of the table. -/
theorem detect_intent_keyword_override (fz : Fuzz) (msg : String) (kws : List String) :
    ((∃ kw ∈ kws, pyContains (" " ++ normalize_text msg ++ " ") (" " ++ kw ++ " ") = true) →
      detectScore fz (normalize_text msg) kws = 100)
    ∧ ((∃ kw ∈ kws, kw.length > 3 ∧ pyContains (normalize_text msg) kw = true) →
      90 ≤ detectScore fz (normalize_text msg) kws) := by
  constructor
  · rintro ⟨kw, hkw, hc⟩
    exact detectScore_eq_100_of_padded fz (normalize_text msg) kws kw hkw hc
  · rintro ⟨kw, hkw, hlen, hc⟩
    exact detectScore_ge_90_of_substring fz (normalize_text msg) kws kw hkw hlen hc

theorem detect_intent_keyword_override_ok :
    (∃ kw ∈ greetingKws,
      pyContains (" " ++ normalize_text "Hi there!" ++ " ") (" " ++ kw ++ " ") = true)
    ∧ detectScore trivialFuzz (normalize_text "Hi there!") greetingKws = 100
    ∧ (∃ kw ∈ greetingKws, kw.length > 3
        ∧ pyContains (normalize_text "Hi there!") kw = true)
    ∧ 90 ≤ detectScore trivialFuzz (normalize_text "Hi there!") greetingKws :=
  ⟨by decide,
   (detect_intent_keyword_override trivialFuzz "Hi there!" greetingKws).1 (by decide),
   by decide,
   (detect_intent_keyword_override trivialFuzz "Hi there!" greetingKws).2 (by decide)⟩

/-- C6: calculate_intent_score always lies in [0, 100] (scores are
naturals, bounded by the similarity bound 100); an empty keyword list
scores 0; a keyword present as a whole token of the message scores
exactly 100; and with no exact token hit the result is the maximum of the
per-keyword best ratios (tokens and keywords longer than two characters)
together with the partial-ratio scores of the multi-word keywords. -/
theorem calculate_intent_score_spec (fz : Fuzz) (msg : String) (kws : List String) :
    calculate_intent_score fz msg kws ≤ 100
    ∧ (kws = [] → calculate_intent_score fz msg kws = 0)
    ∧ (∀ kw ∈ kws, kw ∈ (pySplit msg).dedup → calculate_intent_score fz msg kws = 100)
    ∧ ((∀ kw ∈ kws, kw ∉ (pySplit msg).dedup) →
        calculate_intent_score fz msg kws =
          max (maxList (kws.map (bestRatioFor fz (pySplit msg).dedup)))
              (maxList ((kws.filter (fun kw => (pySplit kw).length > 1)).map
                (fun kw => fz.pratio msg kw)))) := by
  refine ⟨calculate_intent_score_le fz msg kws, ?_, ?_, calculate_no_exact fz msg kws⟩
  · rintro rfl
    rfl
  · intro kw hkw hmem
    exact calculate_eq_100_of_member fz msg kws kw hkw hmem

theorem calculate_intent_score_spec_ok :
    calculate_intent_score trivialFuzz "hi there" [] = 0
    ∧ ("hi" ∈ greetingKws ∧ "hi" ∈ (pySplit "hi there").dedup
       ∧ calculate_intent_score trivialFuzz "hi there" greetingKws = 100)
    ∧ ((∀ kw ∈ ["pizza"], kw ∉ (pySplit "hi there").dedup)
       ∧ calculate_intent_score trivialFuzz "hi there" ["pizza"] =
           max (maxList (["pizza"].map (bestRatioFor trivialFuzz (pySplit "hi there").dedup)))
               (maxList ((["pizza"].filter (fun kw => (pySplit kw).length > 1)).map
                 (fun kw => trivialFuzz.pratio "hi there" kw)))) :=
  ⟨(calculate_intent_score_spec trivialFuzz "hi there" []).2.1 rfl,
   ⟨by decide, by decide,
    (calculate_intent_score_spec trivialFuzz "hi there" greetingKws).2.2.1 "hi"
      (by decide) (by decide)⟩,
   ⟨by decide,
    (calculate_intent_score_spec trivialFuzz "hi there" ["pizza"]).2.2.2 (by decide)⟩⟩

/-- C1 (code bug): the punctuation pass of normalize_text replaces the
apostrophe by a space before the contraction table runs, so no contraction
key ever occurs in the text at replacement time and the table is dead
code; normalize_text of a text containing a listed contraction does not
contain its expansion. -/
theorem normalize_text_contractions_dead :
    normalize_text "what's" = "what s"
    ∧ pyContains (normalize_text "what's") "what is" = false
    ∧ normalize_text "don't" = "don t"
    ∧ pyContains (normalize_text "what's the menu") "what is" = false :=
  ⟨by decide, by decide, by decide, by decide⟩

theorem writeEntries_ok (l : List (JVal × JVal)) (h : ∀ e ∈ l, hashable e.1 = true) :
    writeEntries l = .ok l := by
  induction l with
  | nil => rfl
  | cons e t ih =>
      unfold writeEntries
      rw [if_pos (h e (List.mem_cons_self e t)),
        ih (fun x hx => h x (List.mem_cons_of_mem e hx))]

theorem search_menu_ok_of_hashable (sc : String → String → Nat) (msg : String)
    (cats : List (String × JVal)) (hk : ∀ e ∈ buildEntries cats, hashable e.1 = true) :
    search_menu sc msg (JVal.obj cats) = .ok (searchResolve sc msg cats) := by
  unfold search_menu searchResolve
  simp only
  rw [writeEntries_ok (buildEntries cats) hk]
  show (if ((buildEntries cats).map Prod.fst).isEmpty
        then (Except.ok none : Except PyErr (Option JVal))
        else match extractOne sc msg ((buildEntries cats).map Prod.fst) with
          | some (m, score) =>
              if score ≥ 60 then .ok (mapGetLast m (buildEntries cats)) else .ok none
          | none => .ok none)
      = .ok (if ((buildEntries cats).map Prod.fst).isEmpty then none
        else match extractOne sc msg ((buildEntries cats).map Prod.fst) with
          | some (m, score) => if score ≥ 60 then mapGetLast m (buildEntries cats) else none
          | none => none)
  by_cases he : (((buildEntries cats).map Prod.fst).isEmpty = true)
  · rw [if_pos he, if_pos he]
  · rw [if_neg he, if_neg he]
    cases hx : extractOne sc msg ((buildEntries cats).map Prod.fst) with
    | none => rfl
    | some p =>
        obtain ⟨m, s⟩ := p
        show (if s ≥ 60 then Except.ok (mapGetLast m (buildEntries cats)) else Except.ok none)
            = Except.ok (if s ≥ 60 then mapGetLast m (buildEntries cats) else none)
        by_cases h60 : s ≥ 60
        · rw [if_pos h60, if_pos h60]
        · rw [if_neg h60, if_neg h60]

theorem searchResolve_last_contributor (sc : String → String → Nat) (msg : String)
    (menu : List (String × JVal)) (m : JVal) (s : Nat)
    (hx : extractOne sc msg ((buildEntries menu).map Prod.fst) = some (m, s))
    (h60 : 60 ≤ s) :
    searchResolve sc msg menu = (contributors menu m).getLast? := by
  unfold searchResolve
  simp only
  have hne : ¬ (((buildEntries menu).map Prod.fst).isEmpty = true) := by
    intro h
    rw [List.isEmpty_iff.mp h] at hx
    cases hx
  rw [if_neg hne, hx]
  show (if s ≥ 60 then mapGetLast m (buildEntries menu) else none)
      = (contributors menu m).getLast?
  rw [if_pos h60]
  exact mapGetLast_eq_getLast m (buildEntries menu)

theorem searchResolve_safe (sc : String → String → Nat) (msg : String)
    (menu : List (String × JVal)) :
    (buildEntries menu = [] → searchResolve sc msg menu = none)
    ∧ (∀ m s, extractOne sc msg ((buildEntries menu).map Prod.fst) = some (m, s) → s < 60 →
        searchResolve sc msg menu = none)
    ∧ (searchResolve sc msg menu = none
       ∨ ∃ n, searchResolve sc msg menu = some n ∧ n ∈ catalogNames menu)
    ∧ searchResolve sc msg (wellFormedItems menu) = searchResolve sc msg menu := by
  refine ⟨?_, ?_, ?_, ?_⟩
  · intro h
    unfold searchResolve
    simp only
    rw [if_pos (by rw [h]; rfl)]
  · intro m s hx hs
    unfold searchResolve
    simp only
    by_cases he : (((buildEntries menu).map Prod.fst).isEmpty = true)
    · rw [if_pos he]
    · rw [if_neg he, hx]
      show (if s ≥ 60 then mapGetLast m (buildEntries menu) else none) = none
      rw [if_neg (by omega)]
  · unfold searchResolve
    simp only
    by_cases he : (((buildEntries menu).map Prod.fst).isEmpty = true)
    · left; rw [if_pos he]
    · rw [if_neg he]
      cases hx : extractOne sc msg ((buildEntries menu).map Prod.fst) with
      | none => left; rfl
      | some p =>
          obtain ⟨m, s⟩ := p
          show (if s ≥ 60 then mapGetLast m (buildEntries menu) else none) = none
              ∨ ∃ n, (if s ≥ 60 then mapGetLast m (buildEntries menu) else none) = some n
                  ∧ n ∈ catalogNames menu
          by_cases h60 : s ≥ 60
          · rw [if_pos h60]
            cases hg : mapGetLast m (buildEntries menu) with
            | none => left; rfl
            | some v =>
                right
                exact ⟨v, rfl, buildEntries_snd_mem menu (m, v) (mapGetLast_mem m _ v hg)⟩
          · rw [if_neg h60]
            left; rfl
  · unfold searchResolve
    rw [buildEntries_wf]

/-- C2 counterexample: in the two-item catalog cat2 both items contribute
the corpus string bbq (Pizza first, Wings second), yet search_menu resolves
a best match on that string to Wings, not to the first contributor Pizza:
the corpus-to-item dict assignment overwrites the earlier binding. -/
theorem search_menu_first_match_false :
    contributors cat2 (JVal.str "bbq") = [JVal.str "Pizza", JVal.str "Wings"]
    ∧ search_menu exactEq "bbq" (JVal.obj cat2) ≠ Except.ok (some (JVal.str "Pizza"))
    ∧ search_menu exactEq "bbq" (JVal.obj cat2) = Except.ok (some (JVal.str "Wings")) :=
  ⟨by decide, by decide, by decide⟩

/-- C2 (amended): on a catalog dict whose corpus keys are all hashable (so
every item_map write completes), when extractOne resolves the query to a
corpus string with score at least 60, search_menu returns the canonical
name of the LAST item that contributed that string in the original
catalog iteration order (Python dict assignment overwrites earlier
bindings). -/
theorem search_menu_last_contributor (sc : String → String → Nat) (msg : String)
    (cats : List (String × JVal)) (m : JVal) (s : Nat)
    (hk : ∀ e ∈ buildEntries cats, hashable e.1 = true)
    (hx : extractOne sc msg ((buildEntries cats).map Prod.fst) = some (m, s))
    (h60 : 60 ≤ s) :
    search_menu sc msg (JVal.obj cats) = Except.ok ((contributors cats m).getLast?) := by
  rw [search_menu_ok_of_hashable sc msg cats hk,
    searchResolve_last_contributor sc msg cats m s hx h60]

theorem search_menu_last_contributor_ok :
    extractOne exactEq "bbq" ((buildEntries cat2).map Prod.fst) = some (JVal.str "bbq", 100)
    ∧ search_menu exactEq "bbq" (JVal.obj cat2)
        = Except.ok ((contributors cat2 (JVal.str "bbq")).getLast?) :=
  ⟨by decide,
   search_menu_last_contributor exactEq "bbq" cat2 (JVal.str "bbq") 100 (by decide)
     (by decide) (by decide)⟩

/-- C4 counterexample: search_menu does raise for some catalog values. An
item that passes the shape check (a dict with a name key) whose name value
is a JSON array is NOT skipped, and the item_map write on that key raises
TypeError outside the try/except (source line 246); a catalog value that
is not a dict raises AttributeError at .items() (source line 237). Both
refute the never-raises universal of the claim as stated. -/
theorem search_menu_raises :
    search_menu exactEq "chicken wings" unhashableNameCat = Except.error PyErr.typeError
    ∧ search_menu exactEq "chicken wings" (JVal.str "not a dict")
        = Except.error PyErr.attributeError :=
  ⟨rfl, rfl⟩

/-- C4 (amended): search_menu never raises for any input text and any
catalog dict whose corpus keys (item names, truthy descriptions, flavour
names) are hashable values: under that hypothesis the result is always ok,
an empty corpus gives ok none, a best score below 60 gives ok none, any
ok-some result is the name field of a catalog item (never a bare
description, variant or flavour string), and corpus construction silently
skips non-list categories, non-dict items and items without a name. -/
theorem search_menu_total_safe (sc : String → String → Nat) (msg : String)
    (cats : List (String × JVal))
    (hk : ∀ e ∈ buildEntries cats, hashable e.1 = true) :
    (buildEntries cats = [] → search_menu sc msg (JVal.obj cats) = Except.ok none)
    ∧ (∀ m s, extractOne sc msg ((buildEntries cats).map Prod.fst) = some (m, s) → s < 60 →
        search_menu sc msg (JVal.obj cats) = Except.ok none)
    ∧ (search_menu sc msg (JVal.obj cats) = Except.ok none
       ∨ ∃ n, search_menu sc msg (JVal.obj cats) = Except.ok (some n) ∧ n ∈ catalogNames cats)
    ∧ search_menu sc msg (JVal.obj (wellFormedItems cats)) = search_menu sc msg (JVal.obj cats)
    ∧ ∃ r, search_menu sc msg (JVal.obj cats) = Except.ok r := by
  have hb := search_menu_ok_of_hashable sc msg cats hk
  have hkw : ∀ e ∈ buildEntries (wellFormedItems cats), hashable e.1 = true := by
    intro e he
    exact hk e (by rwa [buildEntries_wf] at he)
  have hbw := search_menu_ok_of_hashable sc msg (wellFormedItems cats) hkw
  obtain ⟨h1, h2, h3, h4⟩ := searchResolve_safe sc msg cats
  refine ⟨?_, ?_, ?_, ?_, ?_⟩
  · intro h
    rw [hb, h1 h]
  · intro m s hx hs
    rw [hb, h2 m s hx hs]
  · rcases h3 with h | ⟨n, hn, hmem⟩
    · left; rw [hb, h]
    · right; exact ⟨n, by rw [hb, hn], hmem⟩
  · rw [hb, hbw, h4]
  · exact ⟨searchResolve sc msg cats, hb⟩

theorem search_menu_total_safe_ok :
    search_menu exactEq "pepperoni" (JVal.obj []) = Except.ok none
    ∧ search_menu (fun _ _ => 0) "bbq" (JVal.obj cat2) = Except.ok none
    ∧ (search_menu exactEq "bbq" (JVal.obj cat2) = Except.ok none
       ∨ ∃ n, search_menu exactEq "bbq" (JVal.obj cat2) = Except.ok (some n)
           ∧ n ∈ catalogNames cat2)
    ∧ search_menu exactEq "bbq" (JVal.obj (wellFormedItems cat2))
        = search_menu exactEq "bbq" (JVal.obj cat2)
    ∧ ∃ r, search_menu exactEq "bbq" (JVal.obj cat2) = Except.ok r :=
  ⟨(search_menu_total_safe exactEq "pepperoni" [] (by decide)).1 rfl,
   (search_menu_total_safe (fun _ _ => 0) "bbq" cat2 (by decide)).2.1 (JVal.str "Pizza") 0
     (by decide) (by decide),
   (search_menu_total_safe exactEq "bbq" cat2 (by decide)).2.2.1,
   (search_menu_total_safe exactEq "bbq" cat2 (by decide)).2.2.2.1,
   (search_menu_total_safe exactEq "bbq" cat2 (by decide)).2.2.2.2⟩

/-- C7: on a non-empty FAQ list the resolver scores every entry by
token_set_ratio of the lowercased user message against the lowercased
question, keeps the first entry attaining the maximum (strict-improvement
updates), and returns that entry's answer exactly when the maximum
strictly exceeds 60, the fixed no-match message otherwise. -/
theorem faq_resolver_spec (fz : Fuzz) (u : String) (qas : List (String × String))
    (hne : qas ≠ []) :
    faqHandler fz u (qas.map mkFaq) =
      (if 60 < maxList (qas.map (fScore fz u)) then
        ((qas.find? (fun e => fScore fz u e = maxList (qas.map (fScore fz u)))).map
          Prod.snd).getD noAnswerMsg
      else noAnswerMsg) := by
  unfold faqHandler
  rw [if_neg (by simp [List.isEmpty_iff, hne])]
  show (if ((qas.map mkFaq).foldl (faqStep fz u) (0, none)).1 > 60
      then pyToStr (((qas.map mkFaq).foldl (faqStep fz u) (0, none)).2.getD (JVal.str ""))
      else noAnswerMsg) = _
  rw [faqFold_inv fz u qas 0 none]
  by_cases h0 : 0 < maxList (qas.map (fScore fz u))
  · rw [if_pos h0]
    show (if maxList (qas.map (fScore fz u)) > 60
        then pyToStr (((qas.find? (fun e =>
              fScore fz u e = maxList (qas.map (fScore fz u)))).map
            (fun e => JVal.str e.2)).getD (JVal.str ""))
        else noAnswerMsg) = _
    by_cases h60 : 60 < maxList (qas.map (fScore fz u))
    · rw [if_pos h60, if_pos h60]
      have hMmem : maxList (qas.map (fScore fz u)) ∈ qas.map (fScore fz u) :=
        maxList_mem _ (by simpa using hne)
      obtain ⟨e0, he0, hs0⟩ := List.mem_map.mp hMmem
      have hfs : (qas.find? (fun e =>
          fScore fz u e = maxList (qas.map (fScore fz u)))).isSome :=
        List.find?_isSome.mpr ⟨e0, he0, by simp [hs0]⟩
      cases hf : qas.find? (fun e => fScore fz u e = maxList (qas.map (fScore fz u))) with
      | none => rw [hf] at hfs; simp at hfs
      | some e => rfl
    · rw [if_neg h60, if_neg h60]
  · rw [if_neg h0]
    have h60 : ¬ (60 < maxList (qas.map (fScore fz u))) := by omega
    rw [if_neg h60]
    show (if (0 : Nat) > 60
        then pyToStr ((none : Option JVal).getD (JVal.str "")) else noAnswerMsg)
      = noAnswerMsg
    rw [if_neg (by omega)]

theorem faq_resolver_spec_ok :
    ([("Do you deliver?", "Yes, we deliver.")] ≠ ([] : List (String × String)))
    ∧ faqHandler trivialFuzz "do you deliver?"
        ([("Do you deliver?", "Yes, we deliver.")].map mkFaq) = "Yes, we deliver." :=
  ⟨by decide,
   (faq_resolver_spec trivialFuzz "do you deliver?"
     [("Do you deliver?", "Yes, we deliver.")] (by decide)).trans (by decide)⟩

theorem runClauses_append_ret (l1 : List (String → Option String)) (v : String)
    (dead : List (String → Option String)) (msg : String) :
    runClauses (l1 ++ (fun _ => some v) :: dead) msg
      = runClauses (l1 ++ [fun _ => some v]) msg := by
  induction l1 with
  | nil => rfl
  | cons c t ih =>
      show runClauses (c :: (t ++ (fun _ => some v) :: dead)) msg
          = runClauses (c :: (t ++ [fun _ => some v])) msg
      unfold runClauses
      cases c msg with
      | some r => rfl
      | none => exact ih

theorem runClauses_live_eq (fz : Fuzz) (sc : String → String → Nat)
    (pick : List String → String) (data : BotData) (msg : String) :
    runClauses (liveClauses fz sc pick data ++ [fun _ => some fallbackMsg]) msg
      = some (get_bot_response fz sc pick msg data) := by
  simp only [liveClauses, List.cons_append, List.nil_append, get_bot_response]
  by_cases h1 : detect_intent fz msg = "greeting"
  · simp only [runClauses, if_pos h1]
  · rw [if_neg h1]
    by_cases h2 : detect_intent fz msg = "farewell"
    · simp only [runClauses, if_neg h1, if_pos h2]
    · rw [if_neg h2]
      by_cases h3 : detect_intent fz msg = "menu_query"
      · simp only [runClauses, if_neg h1, if_neg h2, if_pos h3]
      · rw [if_neg h3]
        by_cases h4 : detect_intent fz msg = "branch_query"
        · simp only [runClauses, if_neg h1, if_neg h2, if_neg h3, if_pos h4]
        · rw [if_neg h4]
          by_cases h5 : detect_intent fz msg = "hours_query"
          · simp only [runClauses, if_neg h1, if_neg h2, if_neg h3, if_neg h4, if_pos h5]
          · rw [if_neg h5]
            by_cases h6 : detect_intent fz msg = "faq_query"
            · simp only [runClauses, if_neg h1, if_neg h2, if_neg h3, if_neg h4,
                if_neg h5, if_pos h6]
            · rw [if_neg h6]
              by_cases h7 : detect_intent fz msg = "about"
              · simp only [runClauses, if_neg h1, if_neg h2, if_neg h3, if_neg h4,
                  if_neg h5, if_neg h6, if_pos h7]
              · rw [if_neg h7]
                simp only [runClauses, if_neg h1, if_neg h2, if_neg h3, if_neg h4,
                  if_neg h5, if_neg h6, if_neg h7]

/-- C10: get_bot_response never executes past the unconditional fallback
return of line 598. Read as a clause sequence, the live handlers followed
by the unconditional fallback clause and then ANY sequence of further
clauses (in particular the dead duplicated handler block of lines 599-891)
computes exactly get_bot_response truncated at line 598; and whenever the
detected intent is none of the seven handled labels (that is, unknown),
the fixed fallback string is returned. -/
theorem get_bot_response_dead_code (fz : Fuzz) (sc : String → String → Nat)
    (pick : List String → String) (data : BotData) (msg : String)
    (dead : List (String → Option String)) :
    (runClauses (liveClauses fz sc pick data ++ (fun _ => some fallbackMsg) :: dead) msg
      = some (get_bot_response fz sc pick msg data))
    ∧ (detect_intent fz msg ∉ handledIntents →
        get_bot_response fz sc pick msg data = fallbackMsg) := by
  constructor
  · rw [runClauses_append_ret, runClauses_live_eq]
  · intro h
    simp only [handledIntents, List.mem_cons, List.not_mem_nil, or_false, not_or] at h
    obtain ⟨h1, h2, h3, h4, h5, h6, h7⟩ := h
    simp only [get_bot_response, if_neg h1, if_neg h2, if_neg h3, if_neg h4, if_neg h5,
      if_neg h6, if_neg h7]

theorem get_bot_response_dead_code_ok :
    detect_intent trivialFuzz "z q r s t" ∉ handledIntents
    ∧ get_bot_response trivialFuzz exactEq samplePick "z q r s t" sampleData = fallbackMsg
    ∧ runClauses (liveClauses trivialFuzz exactEq samplePick sampleData
        ++ (fun _ => some fallbackMsg) :: [fun _ => some "dead clause"]) "z q r s t"
      = some (get_bot_response trivialFuzz exactEq samplePick "z q r s t" sampleData) :=
  ⟨by decide,
   (get_bot_response_dead_code trivialFuzz exactEq samplePick sampleData "z q r s t"
     [fun _ => some "dead clause"]).2 (by decide),
   (get_bot_response_dead_code trivialFuzz exactEq samplePick sampleData "z q r s t"
     [fun _ => some "dead clause"]).1⟩
